import Mathlib

/-!
Verification of the demo-data core of the portfolio app (src/app.py).

The only reproducible logic in the repository is the demo dataset
generator `make_demo_df(n, seed)` and the pandas aggregations applied to
its output by the page-rendering functions (daily sums, region × format
sums, hourly means, weekly rolling forecast).  This file gives a shallow
embedding of that pipeline and proves the specified properties.

Modelling conventions:
  - The numpy generator `np.random.default_rng(seed)` is an external
    collaborator; the design notes state that any deterministic seeded
    PRNG is an acceptable model as long as it is a pure function of the
    seed.  We model it as a SplitMix64-style stream threaded through the
    four column draws in the exact order the source performs them
    (region, impressions, uniques, format).  `rng.integers(low, high, n)`
    yields values in the half-open range [low, high); `rng.choice(opts, n)`
    yields elements of `opts`.
  - Dates are represented as day offsets from 2024-01-01 (the start of
    `pd.date_range("2024-01-01", periods=n, freq="D")`); `civilDate`
    converts an offset to a (year, month, day) triple and `isoWeek`
    computes the ISO-8601 week number used by `dt.isocalendar().week`.
  - Floating-point values are modelled as exact rationals; `round`
    (numpy/pandas) is round-half-to-even.
  - `pd.date_range` raises ValueError for a negative `periods` and
    returns an empty index for `periods=0`, so `make_demo_df` takes an
    integer row count and fails only for negative counts.
  - pandas `groupby` sorts group keys ascending and drops empty groups;
    `groupAgg` embeds this with dedup + insertion sort + filter.
-/

/-- One step of the seeded pseudo-random stream modelling
`np.random.default_rng(seed)`: returns (new state, 64-bit output). -/
def sm64next (s : Nat) : Nat × Nat :=
  let s' := (s + 0x9E3779B97F4A7C15) % 2 ^ 64
  let z1 := (Nat.xor s' (s' >>> 30)) * 0xBF58476D1CE4E5B9 % 2 ^ 64
  let z2 := (Nat.xor z1 (z1 >>> 27)) * 0x94D049BB133111EB % 2 ^ 64
  (s', Nat.xor z2 (z2 >>> 31))

/-- Draw `m` values from the stream, threading the PRNG state. -/
def drawMany {α : Type} (step : Nat → Nat × α) : Nat → Nat → Nat × List α
  | s, 0 => (s, [])
  | s, m + 1 =>
    let p := step s
    let q := drawMany step p.1 m
    (q.1, p.2 :: q.2)

/-- Model of `rng.integers(low, high)`: one uniform draw from [low, high). -/
def integersStep (low high : Nat) (s : Nat) : Nat × Nat :=
  let p := sm64next s
  (p.1, low + p.2 % (high - low))

/-- Model of `rng.choice(opts)`: one uniform draw from the option list. -/
def choiceStep (opts : List String) (s : Nat) : Nat × String :=
  let p := sm64next s
  (p.1, opts.getD (p.2 % opts.length) "")

/-- The fixed region categories of `make_demo_df`. -/
def regions : List String := ["Lisboa", "Porto", "Matosinhos", "Setúbal"]

/-- The fixed format categories of `make_demo_df`. -/
def formats : List String := ["Mupi", "Abrigo", "Digital"]

/-- Round-half-to-even to an integer, as numpy rounding does. -/
def roundHalfEven (q : ℚ) : ℤ :=
  if q - ⌊q⌋ < 1 / 2 then ⌊q⌋
  else if 1 / 2 < q - ⌊q⌋ then ⌊q⌋ + 1
  else if 2 ∣ ⌊q⌋ then ⌊q⌋ else ⌊q⌋ + 1

/-- Round to 2 decimal places (model of `.round(2)` on a float column). -/
def round2 (q : ℚ) : ℚ := (roundHalfEven (q * 100) : ℚ) / 100

/-- One row of the demo dataset produced by `make_demo_df`.  The date is
stored as the day offset from 2024-01-01. -/
structure DemoRecord where
  date : Nat
  region : String
  impressions : Nat
  uniques : Nat
  format : String
  freq : ℚ
deriving DecidableEq

/-- A throwaway record used as the default of list lookups. -/
def dummyRec : DemoRecord :=
  { date := 0, region := "", impressions := 0, uniques := 0, format := "", freq := 0 }

/-- The row list built by `make_demo_df` for a non-negative row count:
four column draws in source order (region, impressions, uniques, format),
dates from `pd.date_range("2024-01-01", periods=n, freq="D")`, and the
derived column `freq = (impressions / uniques).round(2)`. -/
def demoRows (n seed : Nat) : List DemoRecord :=
  let r1 := drawMany (choiceStep regions) seed n
  let r2 := drawMany (integersStep 1000 50000) r1.1 n
  let r3 := drawMany (integersStep 500 20000) r2.1 n
  let r4 := drawMany (choiceStep formats) r3.1 n
  (List.range n).map fun i =>
    { date := i
      region := r1.2.getD i ""
      impressions := r2.2.getD i 0
      uniques := r3.2.getD i 0
      format := r4.2.getD i ""
      freq := round2 ((r2.2.getD i 0 : ℚ) / (r3.2.getD i 0 : ℚ)) }

/-- Embedding of `make_demo_df(n, seed)`.  `pd.date_range` (and the numpy
draws) raise ValueError when the requested count is negative; for any
non-negative count the generator returns the row list (empty when n = 0). -/
def make_demo_df (n : Int) (seed : Nat) : Except String (List DemoRecord) :=
  if n < 0 then Except.error "ValueError: number of samples must be non-negative"
  else Except.ok (demoRows n.toNat seed)

/-- Gregorian leap-year test. -/
def isLeapYear (y : Nat) : Bool :=
  (y % 4 = 0 && ¬ y % 100 = 0) || y % 400 = 0

/-- Number of days in a Gregorian year. -/
def daysInYear (y : Nat) : Nat := if isLeapYear y then 366 else 365

/-- Fuel-driven conversion of a day offset into (year, ordinal day in
year), starting from a base year.  The fuel `d + 1` always suffices. -/
def yearOrdinalAux : Nat → Nat → Nat → Nat × Nat
  | 0, y, d => (y, d)
  | fuel + 1, y, d =>
    if d < daysInYear y then (y, d) else yearOrdinalAux fuel (y + 1) (d - daysInYear y)

/-- Convert a day offset from Jan 1 of year `y` into (year, 0-based
ordinal day within that year). -/
def yearOrdinal (y d : Nat) : Nat × Nat := yearOrdinalAux (d + 1) y d

/-- Month lengths of a Gregorian year. -/
def monthLengths (y : Nat) : List Nat :=
  [31, if isLeapYear y then 29 else 28, 31, 30, 31, 30, 31, 31, 30, 31, 30, 31]

/-- Convert a 0-based ordinal day into (month, day-of-month). -/
def monthDayOfOrdinal : List Nat → Nat → Nat → Nat × Nat
  | [], m, ord => (m, ord + 1)
  | len :: rest, m, ord =>
    if ord < len then (m, ord + 1) else monthDayOfOrdinal rest (m + 1) (ord - len)

/-- Calendar date (year, month, day) of a day offset from 2024-01-01. -/
def civilDate (d : Nat) : Nat × Nat × Nat :=
  let p := yearOrdinal 2024 d
  let q := monthDayOfOrdinal (monthLengths p.1) 1 p.2
  (p.1, q.1, q.2)

/-- ISO-8601 week number of a day offset from 2024-01-01 (which is a
Monday): the week number of the Thursday of the same Monday-based week,
as computed by `dt.isocalendar().week`. -/
def isoWeek (d : Nat) : Nat :=
  let thu := d - d % 7 + 3
  (yearOrdinal 2024 thu).2 / 7 + 1

/-- The sorted, deduplicated key list of a pandas groupby. -/
def groupKeys {K A : Type} [DecidableEq K] (le : K → K → Prop) [DecidableRel le]
    (ps : List (K × A)) : List K :=
  ((ps.map Prod.fst).dedup).insertionSort le

/-- Model of a pandas groupby-aggregate: sorted distinct keys, each paired
with the aggregation of the values of its group (empty groups absent). -/
def groupAgg {K A V : Type} [DecidableEq K] (le : K → K → Prop) [DecidableRel le]
    (agg : List A → V) (ps : List (K × A)) : List (K × V) :=
  (groupKeys le ps).map fun k =>
    (k, agg ((ps.filter (fun p => p.1 = k)).map Prod.snd))

/-- Lexicographic Boolean order on (region, format) keys, as pandas sorts
a two-level group key. -/
def pairLe (a b : String × String) : Prop :=
  a.1 < b.1 ∨ (a.1 = b.1 ∧ a.2 ≤ b.2)

instance : DecidableRel pairLe := fun a b => by
  unfold pairLe; infer_instance

/-- Daily aggregation of `render_home`: group by date, sum impressions. -/
def dailyAgg (rows : List DemoRecord) : List (Nat × Nat) :=
  groupAgg (· ≤ ·) List.sum (rows.map fun r => (r.date, r.impressions))

/-- Region × format aggregation of `render_projects` (project 1): group by
(region, format), sum impressions and uniques. -/
def regionFormatAgg (rows : List DemoRecord) : List ((String × String) × (Nat × Nat)) :=
  groupAgg pairLe (fun l => ((l.map Prod.fst).sum, (l.map Prod.snd).sum))
    (rows.map fun r => ((r.region, r.format), (r.impressions, r.uniques)))

/-- Hourly aggregation of `render_projects` (project 2): bucket rows by
row index mod 24 and average the uniques of each bucket. -/
def hourlyMean (rows : List DemoRecord) : List (Nat × ℚ) :=
  groupAgg (· ≤ ·) (fun l => ((l.map (Nat.cast : Nat → ℚ)).sum) / (l.length : ℚ))
    (rows.enum.map fun p => (p.1 % 24, p.2.uniques))

/-- Weekly aggregation of `render_projects` (project 3): assign the ISO
week number to each date and sum impressions per week. -/
def weeklyTable (rows : List DemoRecord) : List (Nat × Nat) :=
  groupAgg (· ≤ ·) List.sum (rows.map fun r => (isoWeek r.date, r.impressions))

/-- Model of `rolling(4, min_periods=1).mean().round()`: at index i, the
mean of the trailing window of the last min(i+1, 4) values, rounded
half-to-even to an integer. -/
def rollingMeanRound (xs : List Nat) : List ℤ :=
  (List.range xs.length).map fun i =>
    let lo := i + 1 - 4
    let w := (List.range (i + 1 - lo)).map fun j => ((xs.getD (lo + j) 0 : ℚ))
    roundHalfEven (w.sum / (w.length : ℚ))

/-! Helper lemmas about the draws and the generated rows. -/

theorem drawMany_length {α : Type} (step : Nat → Nat × α) (s m : Nat) :
    (drawMany step s m).2.length = m := by
  induction m generalizing s with
  | zero => rfl
  | succ k ih => simp [drawMany, ih]

theorem drawMany_mem_integers {low high : Nat} (hlt : low < high) (s m : Nat) :
    ∀ x ∈ (drawMany (integersStep low high) s m).2, low ≤ x ∧ x < high := by
  induction m generalizing s with
  | zero => intro x hx; simp [drawMany] at hx
  | succ k ih =>
    intro x hx
    simp only [drawMany, integersStep, List.mem_cons] at hx
    rcases hx with hx | hx
    · subst hx
      refine ⟨Nat.le_add_right _ _, ?_⟩
      have h1 : (sm64next s).2 % (high - low) < high - low :=
        Nat.mod_lt _ (Nat.sub_pos_of_lt hlt)
      omega
    · exact ih _ x hx

theorem drawMany_mem_choice {opts : List String} (hne : opts ≠ []) (s m : Nat) :
    ∀ x ∈ (drawMany (choiceStep opts) s m).2, x ∈ opts := by
  induction m generalizing s with
  | zero => intro x hx; simp [drawMany] at hx
  | succ k ih =>
    intro x hx
    simp only [drawMany, choiceStep, List.mem_cons] at hx
    rcases hx with hx | hx
    · subst hx
      have hlen : 0 < opts.length := List.length_pos.mpr hne
      have hidx : (sm64next s).2 % opts.length < opts.length := Nat.mod_lt _ hlen
      rw [List.getD_eq_getElem _ _ hidx]
      exact List.getElem_mem hidx
    · exact ih _ x hx

theorem getD_mem_of_lt {α : Type} (l : List α) (i : Nat) (d : α) (h : i < l.length) :
    l.getD i d ∈ l := by
  rw [List.getD_eq_getElem _ _ h]
  exact List.getElem_mem h

theorem demoRows_length (n seed : Nat) : (demoRows n seed).length = n := by
  simp [demoRows]

theorem demoRows_mem (n seed : Nat) (r : DemoRecord) (hr : r ∈ demoRows n seed) :
    ∃ i, i < n ∧
      r = { date := i
            region := (drawMany (choiceStep regions) seed n).2.getD i ""
            impressions :=
              (drawMany (integersStep 1000 50000)
                (drawMany (choiceStep regions) seed n).1 n).2.getD i 0
            uniques :=
              (drawMany (integersStep 500 20000)
                (drawMany (integersStep 1000 50000)
                  (drawMany (choiceStep regions) seed n).1 n).1 n).2.getD i 0
            format :=
              (drawMany (choiceStep formats)
                (drawMany (integersStep 500 20000)
                  (drawMany (integersStep 1000 50000)
                    (drawMany (choiceStep regions) seed n).1 n).1 n).1 n).2.getD i ""
            freq := round2
              (((drawMany (integersStep 1000 50000)
                  (drawMany (choiceStep regions) seed n).1 n).2.getD i 0 : ℚ) /
               ((drawMany (integersStep 500 20000)
                  (drawMany (integersStep 1000 50000)
                    (drawMany (choiceStep regions) seed n).1 n).1 n).2.getD i 0 : ℚ)) } := by
  simp only [demoRows, List.mem_map, List.mem_range] at hr
  obtain ⟨i, hi, hr⟩ := hr
  exact ⟨i, hi, hr.symm⟩

theorem make_demo_df_ok {n : Int} {seed : Nat} {rows : List DemoRecord}
    (h : make_demo_df n seed = Except.ok rows) : rows = demoRows n.toNat seed := by
  unfold make_demo_df at h
  split at h
  · cases h
  · cases h; rfl

theorem demoRows_impressions_range (n seed : Nat) :
    ∀ r ∈ demoRows n seed, 1000 ≤ r.impressions ∧ r.impressions < 50000 := by
  intro r hr
  obtain ⟨i, hi, rfl⟩ := demoRows_mem _ _ _ hr
  have hlen : i < (drawMany (integersStep 1000 50000)
      (drawMany (choiceStep regions) seed n).1 n).2.length := by
    rw [drawMany_length]; exact hi
  exact drawMany_mem_integers (by norm_num) _ _ _ (getD_mem_of_lt _ _ _ hlen)

theorem demoRows_uniques_range (n seed : Nat) :
    ∀ r ∈ demoRows n seed, 500 ≤ r.uniques ∧ r.uniques < 20000 := by
  intro r hr
  obtain ⟨i, hi, rfl⟩ := demoRows_mem _ _ _ hr
  have hlen : i < (drawMany (integersStep 500 20000)
      (drawMany (integersStep 1000 50000)
        (drawMany (choiceStep regions) seed n).1 n).1 n).2.length := by
    rw [drawMany_length]; exact hi
  exact drawMany_mem_integers (by norm_num) _ _ _ (getD_mem_of_lt _ _ _ hlen)

theorem demoRows_region_mem (n seed : Nat) :
    ∀ r ∈ demoRows n seed, r.region ∈ regions := by
  intro r hr
  obtain ⟨i, hi, rfl⟩ := demoRows_mem _ _ _ hr
  have hlen : i < (drawMany (choiceStep regions) seed n).2.length := by
    rw [drawMany_length]; exact hi
  exact drawMany_mem_choice (by simp [regions]) _ _ _ (getD_mem_of_lt _ _ _ hlen)

theorem demoRows_format_mem (n seed : Nat) :
    ∀ r ∈ demoRows n seed, r.format ∈ formats := by
  intro r hr
  obtain ⟨i, hi, rfl⟩ := demoRows_mem _ _ _ hr
  have hlen : i < (drawMany (choiceStep formats)
      (drawMany (integersStep 500 20000)
        (drawMany (integersStep 1000 50000)
          (drawMany (choiceStep regions) seed n).1 n).1 n).1 n).2.length := by
    rw [drawMany_length]; exact hi
  exact drawMany_mem_choice (by simp [formats]) _ _ _ (getD_mem_of_lt _ _ _ hlen)

theorem demoRows_date (n seed i : Nat) (h : i < n) :
    ((demoRows n seed).getD i dummyRec).date = i := by
  have hl : i < (demoRows n seed).length := by rw [demoRows_length]; exact h
  rw [List.getD_eq_getElem _ _ hl]
  simp [demoRows]

theorem demoRows_freq (n seed : Nat) :
    ∀ r ∈ demoRows n seed, r.freq = round2 ((r.impressions : ℚ) / (r.uniques : ℚ)) := by
  intro r hr
  obtain ⟨i, hi, rfl⟩ := demoRows_mem _ _ _ hr
  rfl

/-! Claim theorems. -/

/-- C1, counterexample: contrary to the claim that every call with n < 1
fails, the generator at n = 0 returns a table (with zero rows) rather
than failing: `pd.date_range(periods=0)` and the numpy draws of size 0
are all legal and produce empty columns. -/
theorem make_demo_df_zero_returns_table : make_demo_df 0 7 = Except.ok [] := rfl

/-- C1, amended: only a negative row count makes `make_demo_df` fail
(ValueError raised by the date/draw helpers); at n = 0 the generator
returns an empty table instead of failing. -/
theorem make_demo_df_error_only_for_negative : ∀ (n : Int) (seed : Nat),
    (n < 0 → make_demo_df n seed =
      Except.error "ValueError: number of samples must be non-negative") ∧
    (n = 0 → make_demo_df n seed = Except.ok []) := by
  intro n seed
  constructor
  · intro h; simp [make_demo_df, h]
  · intro h; subst h; rfl

theorem make_demo_df_error_only_for_negative_witness :
    make_demo_df (-1) 7 =
      Except.error "ValueError: number of samples must be non-negative" ∧
    make_demo_df 0 7 = Except.ok [] :=
  ⟨(make_demo_df_error_only_for_negative (-1) 7).1 (by norm_num),
   (make_demo_df_error_only_for_negative 0 7).2 rfl⟩

/-- C2: two invocations of `make_demo_df` with the same (n, seed) produce
identical sequences of records; every field of every row is equal across
the two runs.  The generator draws only from the seeded stream, so its
output is a pure function of (n, seed). -/
theorem make_demo_df_deterministic : ∀ (n : Int) (seed : Nat)
    (rows₁ rows₂ : List DemoRecord),
    make_demo_df n seed = Except.ok rows₁ → make_demo_df n seed = Except.ok rows₂ →
    rows₁.length = rows₂.length ∧
    ∀ i, i < rows₁.length →
      (rows₁.getD i dummyRec).date = (rows₂.getD i dummyRec).date ∧
      (rows₁.getD i dummyRec).region = (rows₂.getD i dummyRec).region ∧
      (rows₁.getD i dummyRec).impressions = (rows₂.getD i dummyRec).impressions ∧
      (rows₁.getD i dummyRec).uniques = (rows₂.getD i dummyRec).uniques ∧
      (rows₁.getD i dummyRec).format = (rows₂.getD i dummyRec).format ∧
      (rows₁.getD i dummyRec).freq = (rows₂.getD i dummyRec).freq := by
  intro n seed rows₁ rows₂ h1 h2
  have heq : rows₁ = rows₂ := by rw [make_demo_df_ok h1, make_demo_df_ok h2]
  subst heq
  exact ⟨rfl, fun i _ => ⟨rfl, rfl, rfl, rfl, rfl, rfl⟩⟩

theorem make_demo_df_deterministic_witness :
    ((demoRows 2 7).getD 0 dummyRec).freq = ((demoRows 2 7).getD 0 dummyRec).freq :=
  ((make_demo_df_deterministic 2 7 (demoRows 2 7) (demoRows 2 7) rfl rfl).2 0
    (by rw [demoRows_length]; omega)).2.2.2.2.2

/-- C3: for n ≥ 1, `make_demo_df(n, seed)` returns exactly n rows whose
dates (day offsets from 2024-01-01) are exactly 0, 1, ..., n−1: strictly
ascending, consecutive offsets one calendar day apart, and the first row
falls on the calendar date 2024-01-01. -/
theorem make_demo_df_dates : ∀ (n : Int) (seed : Nat), 1 ≤ n →
    ∀ rows, make_demo_df n seed = Except.ok rows →
    (rows.length : Int) = n ∧
    (∀ i, i < rows.length → (rows.getD i dummyRec).date = i) ∧
    (∀ i j, i < j → j < rows.length →
      (rows.getD i dummyRec).date < (rows.getD j dummyRec).date) ∧
    (∀ i, i + 1 < rows.length →
      (rows.getD (i + 1) dummyRec).date = (rows.getD i dummyRec).date + 1) ∧
    civilDate ((rows.getD 0 dummyRec).date) = (2024, 1, 1) := by
  intro n seed hn rows h
  have hrows := make_demo_df_ok h
  subst hrows
  have hlen := demoRows_length n.toNat seed
  have hdate : ∀ i, i < (demoRows n.toNat seed).length →
      ((demoRows n.toNat seed).getD i dummyRec).date = i := by
    intro i hi
    exact demoRows_date n.toNat seed i (by rw [hlen] at hi; exact hi)
  refine ⟨?_, hdate, ?_, ?_, ?_⟩
  · rw [hlen]; omega
  · intro i j hij hj
    rw [hdate i (lt_trans hij hj), hdate j hj]; exact hij
  · intro i hi
    rw [hdate (i + 1) hi, hdate i (by omega)]
  · have h0 : (0 : Nat) < (demoRows n.toNat seed).length := by rw [hlen]; omega
    rw [hdate 0 h0]
    rfl

theorem make_demo_df_dates_witness :
    ((demoRows 1 7).length : Int) = 1 ∧
    ((demoRows 1 7).getD 0 dummyRec).date = 0 ∧
    civilDate ((demoRows 1 7).getD 0 dummyRec).date = (2024, 1, 1) := by
  have T := make_demo_df_dates 1 7 (by norm_num) (demoRows 1 7) rfl
  exact ⟨T.1, T.2.1 0 (by rw [demoRows_length]; omega), T.2.2.2.2⟩

/-- C4: every generated row has impressions in [1000, 50000), uniques in
[500, 20000), region among the four fixed regions and format among the
three fixed formats. -/
theorem make_demo_df_ranges : ∀ (n : Int) (seed : Nat) (rows : List DemoRecord),
    make_demo_df n seed = Except.ok rows → ∀ r ∈ rows,
    1000 ≤ r.impressions ∧ r.impressions < 50000 ∧
    500 ≤ r.uniques ∧ r.uniques < 20000 ∧
    r.region ∈ ["Lisboa", "Porto", "Matosinhos", "Setúbal"] ∧
    r.format ∈ ["Mupi", "Abrigo", "Digital"] := by
  intro n seed rows h r hr
  rw [make_demo_df_ok h] at hr
  have h1 := demoRows_impressions_range _ _ r hr
  have h2 := demoRows_uniques_range _ _ r hr
  have h3 := demoRows_region_mem _ _ r hr
  have h4 := demoRows_format_mem _ _ r hr
  exact ⟨h1.1, h1.2, h2.1, h2.2, h3, h4⟩

theorem make_demo_df_ranges_witness :
    1000 ≤ ((demoRows 1 7).getD 0 dummyRec).impressions ∧
    ((demoRows 1 7).getD 0 dummyRec).impressions < 50000 ∧
    500 ≤ ((demoRows 1 7).getD 0 dummyRec).uniques ∧
    ((demoRows 1 7).getD 0 dummyRec).uniques < 20000 ∧
    ((demoRows 1 7).getD 0 dummyRec).region ∈ ["Lisboa", "Porto", "Matosinhos", "Setúbal"] ∧
    ((demoRows 1 7).getD 0 dummyRec).format ∈ ["Mupi", "Abrigo", "Digital"] :=
  make_demo_df_ranges 1 7 (demoRows 1 7) rfl _
    (getD_mem_of_lt _ _ _ (by rw [demoRows_length]; omega))

/-- C5: the derived column of every generated row satisfies
freq = round(impressions / uniques, 2), the division taken in exact
(rational) arithmetic and rounded half-to-even to 2 decimal places. -/
theorem make_demo_df_freq : ∀ (n : Int) (seed : Nat) (rows : List DemoRecord),
    make_demo_df n seed = Except.ok rows → ∀ r ∈ rows,
    r.freq = round2 ((r.impressions : ℚ) / (r.uniques : ℚ)) := by
  intro n seed rows h r hr
  rw [make_demo_df_ok h] at hr
  exact demoRows_freq _ _ r hr

theorem make_demo_df_freq_witness :
    ((demoRows 1 7).getD 0 dummyRec).freq =
      round2 ((((demoRows 1 7).getD 0 dummyRec).impressions : ℚ) /
        (((demoRows 1 7).getD 0 dummyRec).uniques : ℚ)) :=
  make_demo_df_freq 1 7 (demoRows 1 7) rfl _
    (getD_mem_of_lt _ _ _ (by rw [demoRows_length]; omega))

/-- C6: the division defining freq is well-defined on every generated
row: uniques is at least 500, hence non-zero, also after the cast into
the rationals in which the division is carried out. -/
theorem make_demo_df_divisor_nonzero : ∀ (n : Int) (seed : Nat)
    (rows : List DemoRecord),
    make_demo_df n seed = Except.ok rows → ∀ r ∈ rows,
    500 ≤ r.uniques ∧ r.uniques ≠ 0 ∧ ((r.uniques : ℚ)) ≠ 0 := by
  intro n seed rows h r hr
  rw [make_demo_df_ok h] at hr
  have h2 := demoRows_uniques_range _ _ r hr
  refine ⟨h2.1, by omega, ?_⟩
  have : r.uniques ≠ 0 := by omega
  exact_mod_cast this

theorem make_demo_df_divisor_nonzero_witness :
    500 ≤ ((demoRows 1 7).getD 0 dummyRec).uniques ∧
    ((demoRows 1 7).getD 0 dummyRec).uniques ≠ 0 ∧
    ((((demoRows 1 7).getD 0 dummyRec).uniques : ℚ)) ≠ 0 :=
  make_demo_df_divisor_nonzero 1 7 (demoRows 1 7) rfl _
    (getD_mem_of_lt _ _ _ (by rw [demoRows_length]; omega))

/-! Rolling-mean helper lemmas. -/

theorem roundHalfEven_natCast (k : Nat) : roundHalfEven (k : ℚ) = (k : ℤ) := by
  unfold roundHalfEven
  rw [Int.floor_natCast]
  have h : (k : ℚ) - ((k : ℤ) : ℚ) = 0 := by push_cast; ring
  rw [h]
  norm_num

theorem rollingMeanRound_length (xs : List Nat) :
    (rollingMeanRound xs).length = xs.length := by
  simp [rollingMeanRound]

theorem rollingMeanRound_getD (xs : List Nat) (i : Nat) (h : i < xs.length) :
    (rollingMeanRound xs).getD i 0 =
      roundHalfEven ((((List.range (i + 1 - (i + 1 - 4))).map
          (fun j => ((xs.getD ((i + 1 - 4) + j) 0 : ℚ)))).sum) /
        (((List.range (i + 1 - (i + 1 - 4))).map
          (fun j => ((xs.getD ((i + 1 - 4) + j) 0 : ℚ)))).length : ℚ)) := by
  have hl : i < (rollingMeanRound xs).length := by
    rw [rollingMeanRound_length]; exact h
  rw [List.getD_eq_getElem _ _ hl]
  simp only [rollingMeanRound, List.getElem_map, List.getElem_range]

theorem rollingMeanRound_first (xs : List Nat) (h : 0 < xs.length) :
    (rollingMeanRound xs).getD 0 0 = (xs.getD 0 0 : ℤ) := by
  rw [rollingMeanRound_getD xs 0 h]
  have e1 : (0 : Nat) + 1 - (0 + 1 - 4) = 1 := by omega
  have e2 : (0 : Nat) + 1 - 4 = 0 := by omega
  rw [e1, e2]
  have er : List.range 1 = [0] := by decide
  rw [er]
  simp only [List.map_cons, List.map_nil, List.sum_cons, List.sum_nil,
    List.length_cons, List.length_nil, Nat.add_zero, add_zero, Nat.cast_one]
  have h1 : (((0 : ℕ) + 1 : ℕ) : ℚ) = 1 := by norm_num
  rw [h1, div_one]
  exact roundHalfEven_natCast _

theorem rollingMeanRound_window4 (xs : List Nat) (i : Nat) (h3 : 3 ≤ i)
    (h : i < xs.length) :
    (rollingMeanRound xs).getD i 0 =
      roundHalfEven (((xs.getD (i - 3) 0 + xs.getD (i - 2) 0 +
        xs.getD (i - 1) 0 + xs.getD i 0 : ℕ) : ℚ) / 4) := by
  rw [rollingMeanRound_getD xs i h]
  have e1 : i + 1 - (i + 1 - 4) = 4 := by omega
  have e2 : i + 1 - 4 = i - 3 := by omega
  rw [e1, e2]
  have er : List.range 4 = [0, 1, 2, 3] := by decide
  rw [er]
  have f0 : i - 3 + 0 = i - 3 := by omega
  have f1 : i - 3 + 1 = i - 2 := by omega
  have f2 : i - 3 + 2 = i - 1 := by omega
  have f3 : i - 3 + 3 = i := by omega
  simp only [List.map_cons, List.map_nil, List.sum_cons, List.sum_nil,
    List.length_cons, List.length_nil, f0, f1, f2, f3]
  push_cast
  ring_nf

theorem getD_map_snd {A B : Type} (l : List (A × B)) (j : Nat) (dA : A) (dB : B)
    (h : j < l.length) : (l.map Prod.snd).getD j dB = (l.getD j (dA, dB)).2 := by
  have h2 : j < (l.map Prod.snd).length := by simpa using h
  rw [List.getD_eq_getElem _ _ h2, List.getD_eq_getElem _ _ h, List.getElem_map]

/-- C7: in the weekly pipeline (ISO week per date, impressions summed per
week, trailing rolling mean with window 4 and minimum window 1, rounded
to the nearest integer), the first forecast equals the first weekly sum,
and from the 4th week onward each forecast is the rounded mean of the
trailing 4 weekly sums including the current one. -/
theorem weekly_forecast_boundary : ∀ rows : List DemoRecord,
    (0 < (weeklyTable rows).length →
      (rollingMeanRound ((weeklyTable rows).map Prod.snd)).getD 0 0 =
        (((weeklyTable rows).getD 0 (0, 0)).2 : ℤ)) ∧
    (∀ i, 3 ≤ i → i < (weeklyTable rows).length →
      (rollingMeanRound ((weeklyTable rows).map Prod.snd)).getD i 0 =
        roundHalfEven (((((weeklyTable rows).getD (i - 3) (0, 0)).2 +
          ((weeklyTable rows).getD (i - 2) (0, 0)).2 +
          ((weeklyTable rows).getD (i - 1) (0, 0)).2 +
          ((weeklyTable rows).getD i (0, 0)).2 : ℕ) : ℚ) / 4)) := by
  intro rows
  constructor
  · intro h
    have hlen : 0 < ((weeklyTable rows).map Prod.snd).length := by simpa using h
    rw [rollingMeanRound_first _ hlen]
    rw [getD_map_snd (weeklyTable rows) 0 0 0 h]
  · intro i h3 hi
    have hlen : i < ((weeklyTable rows).map Prod.snd).length := by simpa using hi
    rw [rollingMeanRound_window4 _ i h3 hlen]
    rw [getD_map_snd (weeklyTable rows) (i - 3) 0 0 (by omega),
      getD_map_snd (weeklyTable rows) (i - 2) 0 0 (by omega),
      getD_map_snd (weeklyTable rows) (i - 1) 0 0 (by omega),
      getD_map_snd (weeklyTable rows) i 0 0 hi]

set_option maxRecDepth 10000 in
theorem weekly_forecast_boundary_witness :
    (rollingMeanRound ((weeklyTable (demoRows 28 7)).map Prod.snd)).getD 0 0 =
      (((weeklyTable (demoRows 28 7)).getD 0 (0, 0)).2 : ℤ) ∧
    (rollingMeanRound ((weeklyTable (demoRows 28 7)).map Prod.snd)).getD 3 0 =
      roundHalfEven (((((weeklyTable (demoRows 28 7)).getD 0 (0, 0)).2 +
        ((weeklyTable (demoRows 28 7)).getD 1 (0, 0)).2 +
        ((weeklyTable (demoRows 28 7)).getD 2 (0, 0)).2 +
        ((weeklyTable (demoRows 28 7)).getD 3 (0, 0)).2 : ℕ) : ℚ) / 4) :=
  ⟨(weekly_forecast_boundary (demoRows 28 7)).1 (by decide),
   (weekly_forecast_boundary (demoRows 28 7)).2 3 (by norm_num) (by decide)⟩

/-! Groupby partition lemmas. -/

theorem sum_map_filter_split {A : Type} (g : A → Nat) (p : A → Bool) (l : List A) :
    ((l.filter p).map g).sum + ((l.filter (fun a => ! p a)).map g).sum
      = (l.map g).sum := by
  induction l with
  | nil => rfl
  | cons a l ih =>
    by_cases h : p a <;>
      simp only [List.filter_cons, h, Bool.not_true, Bool.not_false, if_pos, if_neg,
        Bool.false_eq_true, not_false_eq_true, List.map_cons, List.sum_cons,
        ite_true, ite_false] <;> omega

theorem mem_groupKeys {K A : Type} [DecidableEq K] (le : K → K → Prop)
    [DecidableRel le] (ps : List (K × A)) (k : K) :
    k ∈ groupKeys le ps ↔ k ∈ ps.map Prod.fst := by
  unfold groupKeys
  rw [(List.perm_insertionSort le _).mem_iff, List.mem_dedup]

theorem groupKeys_nodup {K A : Type} [DecidableEq K] (le : K → K → Prop)
    [DecidableRel le] (ps : List (K × A)) : (groupKeys le ps).Nodup := by
  unfold groupKeys
  exact (List.perm_insertionSort le _).nodup_iff.mpr (List.nodup_dedup _)

theorem sum_over_groups {K A : Type} [DecidableEq K] (f : A → Nat) :
    ∀ (ks : List K) (ps : List (K × A)), ks.Nodup → (∀ p ∈ ps, p.1 ∈ ks) →
    (ks.map fun k => ((ps.filter (fun p => p.1 = k)).map (fun p => f p.2)).sum).sum
      = (ps.map (fun p => f p.2)).sum := by
  intro ks
  induction ks with
  | nil =>
    intro ps _ hmem
    cases ps with
    | nil => rfl
    | cons p ps => exact absurd (hmem p (by simp)) (by simp)
  | cons k ks ih =>
    intro ps hnd hmem
    have hsplit := sum_map_filter_split (fun p => f p.2) (fun p => p.1 = k) ps
    have hknotin : k ∉ ks := (List.nodup_cons.mp hnd).1
    have hmap : (ks.map fun k' =>
          ((ps.filter (fun p => p.1 = k')).map (fun p => f p.2)).sum)
        = (ks.map fun k' =>
          (((ps.filter (fun p => ! (p.1 = k))).filter
            (fun p => p.1 = k')).map (fun p => f p.2)).sum) := by
      apply List.map_congr_left
      intro k' hk'
      have hkk : k' ≠ k := by rintro rfl; exact hknotin hk'
      rw [List.filter_filter]
      congr 1
      congr 1
      apply List.filter_congr
      intro p _
      by_cases h : p.1 = k' <;> simp [h, hkk]
    have hmem2 : ∀ p ∈ ps.filter (fun p => ! (p.1 = k)), p.1 ∈ ks := by
      intro p hp
      rcases List.mem_filter.mp hp with ⟨hp1, hp2⟩
      have hne : p.1 ≠ k := by simpa using hp2
      rcases List.mem_cons.mp (hmem p hp1) with h | h
      · exact absurd h hne
      · exact h
    have hih := ih (ps.filter (fun p => ! (p.1 = k))) (List.nodup_cons.mp hnd).2 hmem2
    rw [List.map_cons, List.sum_cons, hmap, hih]
    exact hsplit
/-- C8: the per-(region, format) aggregated impressions of
`render_projects` (project 1) sum, over all combinations present in the
data, to the impressions sum of the whole dataset. -/
theorem regionFormatAgg_total : ∀ (n : Int) (seed : Nat) (rows : List DemoRecord),
    make_demo_df n seed = Except.ok rows →
    ((regionFormatAgg rows).map (fun kv => kv.2.1)).sum
      = (rows.map (fun r => r.impressions)).sum := by
  intro n seed rows h
  unfold regionFormatAgg groupAgg
  rw [List.map_map]
  have hsum := sum_over_groups (Prod.fst : Nat × Nat → Nat)
    (groupKeys pairLe (rows.map fun r => ((r.region, r.format), (r.impressions, r.uniques))))
    (rows.map fun r => ((r.region, r.format), (r.impressions, r.uniques)))
    (groupKeys_nodup pairLe _)
    (fun p hp => (mem_groupKeys pairLe _ p.1).mpr (List.mem_map_of_mem Prod.fst hp))
  have hrhs : ((rows.map fun r => ((r.region, r.format), (r.impressions, r.uniques))).map
      (fun p => (Prod.fst : Nat × Nat → Nat) p.2)).sum
      = (rows.map (fun r => r.impressions)).sum := by
    rw [List.map_map]
    rfl
  have hfuse : ∀ k : String × String,
      ((((rows.map fun r => ((r.region, r.format), (r.impressions, r.uniques))).filter
        (fun p => p.1 = k)).map Prod.snd).map Prod.fst).sum
      = (((rows.map fun r => ((r.region, r.format), (r.impressions, r.uniques))).filter
        (fun p => p.1 = k)).map (fun p => (Prod.fst : Nat × Nat → Nat) p.2)).sum := by
    intro k
    rw [List.map_map]
    rfl
  refine Eq.trans ?_ (hsum.trans hrhs)
  apply congrArg List.sum
  apply List.map_congr_left
  intro k _
  exact hfuse k

theorem regionFormatAgg_total_witness :
    ((regionFormatAgg (demoRows 2 7)).map (fun kv => kv.2.1)).sum
      = ((demoRows 2 7).map (fun r => r.impressions)).sum :=
  regionFormatAgg_total 2 7 (demoRows 2 7) rfl

/-! Hourly-bucket helper lemmas. -/

theorem map_fst_groupAgg {K A V : Type} [DecidableEq K] (le : K → K → Prop)
    [DecidableRel le] (agg : List A → V) (ps : List (K × A)) :
    (groupAgg le agg ps).map Prod.fst = groupKeys le ps := by
  unfold groupAgg
  rw [List.map_map]
  exact List.map_id _

theorem hourly_ps_map_fst (rows : List DemoRecord) :
    (rows.enum.map fun p => (p.1 % 24, p.2.uniques)).map Prod.fst
      = (List.range rows.length).map (· % 24) := by
  rw [List.map_map]
  have hc : (Prod.fst ∘ fun p : Nat × DemoRecord => (p.1 % 24, p.2.uniques))
      = (fun i : Nat => i % 24) ∘ Prod.fst := rfl
  rw [hc, ← List.map_map, List.enum_map_fst]

theorem mem_hourlyMean_keys (rows : List DemoRecord) (b : Nat) :
    b ∈ (hourlyMean rows).map Prod.fst ↔ ∃ i, i < rows.length ∧ i % 24 = b := by
  unfold hourlyMean
  rw [map_fst_groupAgg, mem_groupKeys, hourly_ps_map_fst]
  constructor
  · intro hb
    rcases List.mem_map.mp hb with ⟨i, hi, he⟩
    exact ⟨i, List.mem_range.mp hi, he⟩
  · intro hb
    rcases hb with ⟨i, hi, he⟩
    exact List.mem_map.mpr ⟨i, List.mem_range.mpr hi, he⟩

theorem hourlyMean_keys_nodup (rows : List DemoRecord) :
    ((hourlyMean rows).map Prod.fst).Nodup := by
  unfold hourlyMean
  rw [map_fst_groupAgg]
  exact groupKeys_nodup _ _

theorem hourlyMean_keys_sorted (rows : List DemoRecord) :
    ((hourlyMean rows).map Prod.fst).Sorted (· ≤ ·) := by
  unfold hourlyMean
  rw [map_fst_groupAgg]
  unfold groupKeys
  exact List.sorted_insertionSort _ _

/-- C9: the hourly aggregation of `render_projects` (project 2) buckets
rows by row index mod 24; its key list has at most 24 buckets, a bucket
is present exactly when some row falls into it (empty buckets are absent
rather than zero-filled), with at least 24 rows the buckets are exactly
0..23, and the value of every bucket is the mean of the uniques of its
rows. -/
theorem hourlyMean_buckets : ∀ (n : Int) (seed : Nat) (rows : List DemoRecord),
    make_demo_df n seed = Except.ok rows →
    ((hourlyMean rows).map Prod.fst).length ≤ 24 ∧
    (∀ b, b ∈ (hourlyMean rows).map Prod.fst ↔
      ∃ i, i < rows.length ∧ i % 24 = b) ∧
    (24 ≤ n → (hourlyMean rows).map Prod.fst = List.range 24) ∧
    (∀ k v, (k, v) ∈ hourlyMean rows →
      v = (((rows.enum.filter (fun p => p.1 % 24 = k)).map
          (fun p => (p.2.uniques : ℚ))).sum) /
        ((rows.enum.filter (fun p => p.1 % 24 = k)).length : ℚ)) := by
  intro n seed rows h
  have hsub : (hourlyMean rows).map Prod.fst ⊆ List.range 24 := by
    intro b hb
    rcases (mem_hourlyMean_keys rows b).mp hb with ⟨i, _, he⟩
    exact List.mem_range.mpr (he ▸ Nat.mod_lt i (by norm_num))
  refine ⟨?_, mem_hourlyMean_keys rows, ?_, ?_⟩
  · have hsp := List.subperm_of_subset (hourlyMean_keys_nodup rows) hsub
    simpa using hsp.length_le
  · intro h24
    have hlen : 24 ≤ rows.length := by
      rw [make_demo_df_ok h, demoRows_length]
      omega
    apply List.eq_of_perm_of_sorted (r := (· ≤ ·))
    · apply (List.perm_ext_iff_of_nodup (hourlyMean_keys_nodup rows)
        (List.nodup_range 24)).mpr
      intro b
      rw [mem_hourlyMean_keys rows b, List.mem_range]
      constructor
      · rintro ⟨i, _, he⟩
        exact he ▸ Nat.mod_lt i (by norm_num)
      · intro hb
        exact ⟨b, by omega, Nat.mod_eq_of_lt hb⟩
    · exact hourlyMean_keys_sorted rows
    · exact (List.sorted_lt_range 24).imp le_of_lt
  · intro k v hkv
    unfold hourlyMean groupAgg at hkv
    rcases List.mem_map.mp hkv with ⟨k', hk', hkve⟩
    rcases Prod.mk.injEq .. ▸ hkve with ⟨hke, hve⟩
    subst hke
    rw [← hve]
    show (((((rows.enum.map fun p => (p.1 % 24, p.2.uniques)).filter
        (fun p => p.1 = k')).map Prod.snd).map (Nat.cast : Nat → ℚ)).sum) /
        ((((rows.enum.map fun p => (p.1 % 24, p.2.uniques)).filter
        (fun p => p.1 = k')).map Prod.snd).length : ℚ) = _
    rw [List.filter_map (fun p : Nat × DemoRecord => (p.1 % 24, p.2.uniques))]
    have hpred : ((fun p : Nat × Nat => decide (p.1 = k')) ∘
        (fun p : Nat × DemoRecord => (p.1 % 24, p.2.uniques)))
        = fun p : Nat × DemoRecord => decide (p.1 % 24 = k') := rfl
    rw [hpred, List.map_map, List.map_map, List.length_map, List.length_map]
    rfl

theorem hourlyMean_buckets_witness :
    ((hourlyMean (demoRows 24 7)).map Prod.fst).length ≤ 24 ∧
    (hourlyMean (demoRows 24 7)).map Prod.fst = List.range 24 :=
  ⟨(hourlyMean_buckets 24 7 (demoRows 24 7) rfl).1,
   (hourlyMean_buckets 24 7 (demoRows 24 7) rfl).2.2.1 (by norm_num)⟩

/-! Daily-aggregation helper lemmas. -/

theorem demoRows_map_date (n seed : Nat) :
    (demoRows n seed).map (fun r => r.date) = List.range n := by
  unfold demoRows
  rw [List.map_map]
  exact List.map_id _

theorem getD_map_eq {A B : Type} (f : A → B) (l : List A) (i : Nat) (d : A)
    (h : i < l.length) : (l.map f).getD i (f d) = f (l.getD i d) := by
  have h2 : i < (l.map f).length := by simpa using h
  rw [List.getD_eq_getElem _ _ h2, List.getD_eq_getElem _ _ h, List.getElem_map]

theorem groupAgg_eq_self : ∀ (ps : List (Nat × Nat)), (ps.map Prod.fst).Nodup →
    ((ps.map Prod.fst).map (fun k =>
      (k, ((ps.filter (fun p => p.1 = k)).map Prod.snd).sum))) = ps := by
  intro ps
  induction ps with
  | nil => intro _; rfl
  | cons p ps ih =>
    intro hnd
    simp only [List.map_cons] at hnd
    have hnotin : p.1 ∉ ps.map Prod.fst := (List.nodup_cons.mp hnd).1
    have hhead : (p :: ps).filter (fun q => q.1 = p.1) = [p] := by
      rw [List.filter_cons, if_pos (by simp)]
      have hnil : ps.filter (fun q => q.1 = p.1) = [] := by
        apply List.filter_eq_nil_iff.mpr
        intro q hq
        simp only [decide_eq_true_eq]
        intro hq1
        exact hnotin (hq1 ▸ List.mem_map_of_mem Prod.fst hq)
      rw [hnil]
    have htail : (ps.map Prod.fst).map (fun k =>
        (k, (((p :: ps).filter (fun q => q.1 = k)).map Prod.snd).sum))
        = (ps.map Prod.fst).map (fun k =>
        (k, ((ps.filter (fun q => q.1 = k)).map Prod.snd).sum)) := by
      apply List.map_congr_left
      intro k hk
      have hne : p.1 ≠ k := fun he => hnotin (he ▸ hk)
      rw [List.filter_cons, if_neg (by simp [hne])]
    simp only [List.map_cons]
    rw [hhead, htail, ih (List.nodup_cons.mp hnd).2]
    simp

/-- C10: because every date occurs exactly once in the generated table,
the daily aggregation of `render_home` (group by date, sum impressions)
is an identity: it returns one row per input row, in the same ascending
date order, and every summed value equals the single original
impressions value of that date. -/
theorem dailyAgg_identity : ∀ (n : Int) (seed : Nat) (rows : List DemoRecord),
    make_demo_df n seed = Except.ok rows →
    dailyAgg rows = rows.map (fun r => (r.date, r.impressions)) ∧
    (dailyAgg rows).length = rows.length ∧
    (∀ i, i < rows.length → (dailyAgg rows).getD i (0, 0)
      = ((rows.getD i dummyRec).date, (rows.getD i dummyRec).impressions)) := by
  intro n seed rows h
  have hrows := make_demo_df_ok h
  subst hrows
  have hfst : ((demoRows n.toNat seed).map
      (fun r => (r.date, r.impressions))).map Prod.fst = List.range n.toNat := by
    rw [List.map_map]
    exact demoRows_map_date n.toNat seed
  have hnd : (((demoRows n.toNat seed).map
      (fun r => (r.date, r.impressions))).map Prod.fst).Nodup := by
    rw [hfst]; exact List.nodup_range n.toNat
  have hsorted : (((demoRows n.toNat seed).map
      (fun r => (r.date, r.impressions))).map Prod.fst).Sorted (· ≤ ·) := by
    rw [hfst]; exact (List.sorted_lt_range n.toNat).imp le_of_lt
  have hmain : dailyAgg (demoRows n.toNat seed)
      = (demoRows n.toNat seed).map (fun r => (r.date, r.impressions)) := by
    unfold dailyAgg groupAgg groupKeys
    rw [List.Nodup.dedup hnd, List.Sorted.insertionSort_eq hsorted]
    exact groupAgg_eq_self _ hnd
  refine ⟨hmain, ?_, ?_⟩
  · rw [hmain, List.length_map]
  · intro i hi
    rw [hmain]
    exact getD_map_eq (fun r => (r.date, r.impressions)) _ i dummyRec hi

theorem dailyAgg_identity_witness :
    dailyAgg (demoRows 2 7) = (demoRows 2 7).map (fun r => (r.date, r.impressions)) ∧
    (dailyAgg (demoRows 2 7)).length = (demoRows 2 7).length :=
  ⟨(dailyAgg_identity 2 7 (demoRows 2 7) rfl).1,
   (dailyAgg_identity 2 7 (demoRows 2 7) rfl).2.1⟩
